import Mathlib

/-!
Shallow embedding of the persistence / note-store logic of the Take-Note
application (src/js/NoteManager.js) and of the editor undo/redo history
(Editor.js), together with proofs of the specified properties.

Conventions of the embedding:
* JS strings are Lean `String`s; character-level operations (`trim`,
  `split`, `substring`, regex replaces) are modelled on `List Char`.
* The DOM/`localStorage` environment is explicit state: the two
  `localStorage` entries are the `storedNotes` / `storedActiveId` fields
  of the store state.
* Fallible remote (Supabase) calls take their outcome as an explicit
  argument (`Option` of the row the backend would return, or a `Bool`
  success flag); a `none` / `false` outcome is the rejected promise that
  the corresponding `catch` block in the source handles.
* Timestamps (`new Date().toISOString()`, `Date.now()`) are `Nat`
  arguments threaded in by the caller.
-/

/-- Whitespace class used by the JS `trim` and the regex `\s` for the
ASCII range (space, tab, newline, carriage return, vertical tab,
form feed). -/
def isJsWs (c : Char) : Bool :=
  c = ' ' || c = '\t' || c = '\n' || c = '\r' || c.val = 11 || c.val = 12

/-- Drop trailing characters satisfying `isJsWs` (right half of JS
`String.prototype.trim`). -/
def dropTrailingWs : List Char → List Char
  | [] => []
  | c :: cs =>
    let r := dropTrailingWs cs
    if r.isEmpty then (if isJsWs c then [] else [c]) else c :: r

/-- JS `String.prototype.trim` on a character list. -/
def trimList (l : List Char) : List Char :=
  dropTrailingWs (l.dropWhile isJsWs)

/-- State machine modelling the tag-removing regex replace
`content.replace(/<[^>]*>/g, '')` (equivalently the text content the DOM
yields for the tag-only HTML fragments the application produces):
outside a tag characters pass through; from a `<` up to the next `>`
characters are dropped; a `<` never followed by a `>` does not match the
regex, so the buffered characters are emitted verbatim at the end. -/
def stripTagsAux : List Char → Bool → List Char → List Char
  | [], false, _ => []
  | [], true, buf => buf.reverse
  | c :: rest, false, _ =>
    if c = '<' then stripTagsAux rest true [c]
    else c :: stripTagsAux rest false []
  | c :: rest, true, buf =>
    if c = '>' then stripTagsAux rest false []
    else stripTagsAux rest true (c :: buf)

/-- Remove HTML tags from a character list. -/
def stripTags (l : List Char) : List Char :=
  stripTagsAux l false []

/-- Remove HTML tags from a string (plain-text view of a note body). -/
def stripHtml (s : String) : String :=
  ⟨stripTags s.data⟩

/-- JS `String.prototype.split` against a one-character-class regex with
a `+` quantifier (`/\s+/`, `/[.!?]+/`): separators are maximal runs of
characters satisfying `p`; a leading or trailing run contributes an
empty segment, interior runs separate segments.  The second argument
records whether the previous character was a separator, the third is
the reversed current segment. -/
def splitRunsAux (p : Char → Bool) : List Char → Bool → List Char → List (List Char)
  | [], _, cur => [cur.reverse]
  | c :: rest, prevSep, cur =>
    if p c then
      if prevSep then splitRunsAux p rest true cur
      else cur.reverse :: splitRunsAux p rest true []
    else splitRunsAux p rest false (c :: cur)

/-- Split a character list on maximal runs of characters satisfying `p`. -/
def splitRuns (p : Char → Bool) (l : List Char) : List (List Char) :=
  splitRunsAux p l false []

/-- Sentence-terminating characters of the `/[.!?]+/` regex in
`getNoteStats`. -/
def isSentenceEnd (c : Char) : Bool :=
  c = '.' || c = '!' || c = '?'

/-- A note as held in the manager's in-memory `notes` array. -/
structure Note where
  id : String
  title : String
  content : String
  createdAt : Nat
  updatedAt : Nat
deriving Repr, DecidableEq

/-- A pending debounced auto-save (the `setTimeout` callback together
with the arguments captured by its closure). -/
structure PendingSave where
  id : String
  content : String
  delayMs : Nat
deriving Repr, DecidableEq

/-- State of a `NoteManager` instance plus the two `localStorage`
entries it mirrors into (`takenote-notes`, `takenote-active-id`). -/
structure Store where
  notes : List Note
  activeNoteId : Option String
  useDatabase : Bool
  storedNotes : List Note
  storedActiveId : Option String
  autoSaveTimeout : Option PendingSave
deriving Repr, DecidableEq

/-- A row of the remote `notes` table as the migration inserts it
(`user_id`, `title`, `content`; `id` and the timestamps are generated
by the backend and never read back by `migrateToDatabase`). -/
structure DbRow where
  user_id : String
  title : String
  content : String
deriving Repr, DecidableEq

/-- NoteManager.saveNotesToStorage: mirror the in-memory list and
active id into the two `localStorage` entries. -/
def saveNotesToStorage (st : Store) : Store :=
  { st with storedNotes := st.notes, storedActiveId := st.activeNoteId }

/-- NoteManager.getNoteById: `this.notes.find(note => note.id === id)`. -/
def getNoteById (notes : List Note) (id : String) : Option Note :=
  match notes with
  | [] => none
  | n :: rest => if n.id = id then some n else getNoteById rest id

/-- Partial update object passed to `updateNote` (the source passes
`{title, content}` or a subset of those fields). -/
structure NoteUpdates where
  title : Option String
  content : Option String
deriving Repr, DecidableEq

/-- Merge an update object into a note and stamp `updatedAt`
(`{...this.notes[noteIndex], ...updates, updatedAt: new Date().toISOString()}`). -/
def applyUpdates (n : Note) (u : NoteUpdates) (now : Nat) : Note :=
  { n with
    title := u.title.getD n.title
    content := u.content.getD n.content
    updatedAt := now }

/-- Replace the first note whose id matches (JS `findIndex` followed by
an assignment to `this.notes[noteIndex]`); returns the new list and the
replaced element, or `none` when `findIndex` gave `-1`. -/
def updateFirst (notes : List Note) (id : String) (f : Note → Note) :
    List Note × Option Note :=
  match notes with
  | [] => ([], none)
  | n :: rest =>
    if n.id = id then (f n :: rest, some (f n))
    else
      let r := updateFirst rest id f
      (n :: r.1, r.2)

/-- NoteManager.updateNoteInStorage. -/
def updateNoteInStorage (st : Store) (id : String) (u : NoteUpdates) (now : Nat) :
    Store × Option Note :=
  match updateFirst st.notes id (fun n => applyUpdates n u now) with
  | (notes', some n') => (saveNotesToStorage { st with notes := notes' }, some n')
  | (_, none) => (st, none)

/-- NoteManager.updateNoteInDatabase.  `dbResp` is the row the
`update ... select().single()` call resolves with (`none` = the promise
rejected, handled by the `catch` that falls back to local storage).  On
success the in-memory entry is overwritten wholesale with the returned
row. -/
def updateNoteInDatabase (st : Store) (id : String) (u : NoteUpdates) (now : Nat)
    (dbResp : Option Note) : Store × Option Note :=
  match dbResp with
  | none => updateNoteInStorage st id u now
  | some data =>
    match updateFirst st.notes id (fun _ => data) with
    | (notes', some n') => (saveNotesToStorage { st with notes := notes' }, some n')
    | (_, none) => (st, none)

/-- NoteManager.updateNote: route to the database or to local storage
depending on the store mode and session state. -/
def updateNote (st : Store) (authed : Bool) (id : String) (u : NoteUpdates) (now : Nat)
    (dbResp : Option Note) : Store × Option Note :=
  if st.useDatabase && authed then updateNoteInDatabase st id u now dbResp
  else updateNoteInStorage st id u now

/-- NoteManager.extractFirstLineAsTitle: strip tags, trim, take the
text up to the first newline, trim again; empty input or input that
strips to nothing yields the empty string. -/
def extractFirstLineAsTitle (content : String) : String :=
  if content = "" then ""
  else
    let plainText := trimList (stripTags content.data)
    if plainText = [] then ""
    else
      let firstLine := trimList (plainText.takeWhile (fun c => !(c = '\n')))
      if firstLine = [] then "Untitled Note" else ⟨firstLine⟩

/-- Title derivation of NoteManager.updateNoteTitle:
`firstLine ? firstLine.substring(0, 50) + (firstLine.length > 50 ? '...' : '') : 'Untitled Note'`. -/
def deriveTitle (content : String) : String :=
  let firstLine := (extractFirstLineAsTitle content).data
  if firstLine = [] then "Untitled Note"
  else ⟨firstLine.take 50 ++ (if 50 < firstLine.length then ['.', '.', '.'] else [])⟩

/-- NoteManager.updateNoteTitle: derive a title from the content and
pass both to `updateNote` (its `catch` only logs, so the operation is
total). -/
def updateNoteTitle (st : Store) (authed : Bool) (id content : String) (now : Nat)
    (dbResp : Option Note) : Store × Option Note :=
  updateNote st authed id ⟨some (deriveTitle content), some content⟩ now dbResp

/-- Remove the first note whose id matches (JS `findIndex` followed by
`splice(noteIndex, 1)`); the flag records whether `findIndex` found it. -/
def removeFirst (notes : List Note) (id : String) : List Note × Bool :=
  match notes with
  | [] => ([], false)
  | n :: rest =>
    if n.id = id then (rest, true)
    else
      let r := removeFirst rest id
      (n :: r.1, r.2)

/-- NoteManager.deleteNote.  Throws (returns `Except.error`) when no
session exists, before anything is touched; `dbOk` is the outcome of the
remote delete, whose failure is rethrown as `Failed to delete note`.  On
success the note is removed from memory and, when it was the active
note, the first remaining note (or nothing) becomes active. -/
def deleteNote (st : Store) (authed : Bool) (dbOk : Bool) (id : String) :
    Store × Except String Bool :=
  if !authed then (st, Except.error "User must be authenticated to delete notes")
  else if !dbOk then (st, Except.error "Failed to delete note")
  else
    match removeFirst st.notes id with
    | (_, false) => (st, Except.ok false)
    | (notes', true) =>
      let active' :=
        if st.activeNoteId = some id then
          match notes' with
          | [] => none
          | n :: _ => some n.id
        else st.activeNoteId
      ({ st with notes := notes', activeNoteId := active' }, Except.ok true)

/-- NoteManager.createNoteInStorage: build the note with a generated id
and the current timestamp, unshift it, make it active, mirror to
storage. -/
def createNoteInStorage (st : Store) (title content genId : String) (now : Nat) :
    Store × Note :=
  let note : Note := ⟨genId, title, content, now, now⟩
  (saveNotesToStorage { st with notes := note :: st.notes, activeNoteId := some note.id },
   note)

/-- NoteManager.createNoteInDatabase.  `dbResp` is the row the
`insert ... select().single()` call resolves with; `none` is the
rejected promise, whose `catch` falls back to `createNoteInStorage`. -/
def createNoteInDatabase (st : Store) (title content : String) (dbResp : Option Note)
    (genId : String) (now : Nat) : Store × Note :=
  match dbResp with
  | some data =>
    (saveNotesToStorage { st with notes := data :: st.notes, activeNoteId := some data.id },
     data)
  | none => createNoteInStorage st title content genId now

/-- NoteManager.createNote: route to the database or to local storage. -/
def createNote (st : Store) (authed : Bool) (title content : String) (dbResp : Option Note)
    (genId : String) (now : Nat) : Store × Note :=
  if st.useDatabase && authed then createNoteInDatabase st title content dbResp genId now
  else createNoteInStorage st title content genId now

/-- NoteManager.migrateToDatabase.  Returns the remote table after the
call.  Nothing happens without a session or with no local notes; if the
user already owns a row the migration is skipped; otherwise each local
note is inserted, an insert whose promise rejects (`insertOk` false)
being skipped by the per-note `catch`. -/
def migrateToDatabase (authed : Bool) (userId : String) (notes : List Note)
    (remote : List DbRow) (insertOk : Note → Bool) : List DbRow :=
  if !authed || notes.isEmpty then remote
  else if !(remote.filter (fun r => r.user_id = userId)).isEmpty then remote
  else
    notes.foldl
      (fun acc n => if insertOk n then acc ++ [⟨userId, n.title, n.content⟩] else acc)
      remote

/-- NoteManager.getNoteStats. -/
structure NoteStats where
  words : Nat
  characters : Nat
  sentences : Nat
deriving Repr, DecidableEq

/-- NoteManager.getNoteStats: counts over the tag-stripped text. -/
def getNoteStats (content : String) : NoteStats :=
  if content = "" then ⟨0, 0, 0⟩
  else
    let plainText := stripTags content.data
    let trimmed := trimList plainText
    let words := if trimmed = [] then 0 else (splitRuns isJsWs trimmed).length
    let sentences :=
      if trimmed = [] then 0
      else ((splitRuns isSentenceEnd plainText).filter
              (fun s => !(trimList s).isEmpty)).length
    ⟨words, plainText.length, sentences⟩

/-- Character-wise sanitization of `sanitizeFilename`
(`filename.replace(/[^a-z0-9]/gi, '_').toLowerCase()`): the regex has no
quantifier, so each non-alphanumeric character becomes its own `_`. -/
def sanChar (c : Char) : Char :=
  if c.isAlphanum then c.toLower else '_'

/-- NoteManager.sanitizeFilename. -/
def sanitizeFilename (filename : String) : String :=
  ⟨filename.data.map sanChar⟩

/-- Value returned by NoteManager.exportNoteAsText. -/
structure ExportResult where
  title : String
  content : String
  filename : String
deriving Repr, DecidableEq

/-- NoteManager.exportNoteAsText: `null` when the id is unknown,
otherwise the tag-stripped content plus the sanitized `.txt` filename. -/
def exportNoteAsText (st : Store) (id : String) : Option ExportResult :=
  match getNoteById st.notes id with
  | none => none
  | some note =>
    some ⟨note.title, stripHtml note.content, sanitizeFilename note.title ++ ".txt"⟩

/-- NoteManager.autoSaveNote: inactive without a session; otherwise the
pending timer (a single slot per store instance) is cleared and replaced
by one for this call. -/
def autoSaveNote (st : Store) (authed : Bool) (id content : String) (debounceMs : Nat) :
    Store :=
  if !authed then st
  else { st with autoSaveTimeout := some ⟨id, content, debounceMs⟩ }

/-- Firing of the pending auto-save timer: the callback runs
`updateNoteTitle` with the captured id and content; a fired timer never
fires again, modelled by clearing the slot. -/
def fireAutoSave (st : Store) (authed : Bool) (now : Nat) (dbResp : Option Note) : Store :=
  match st.autoSaveTimeout with
  | none => st
  | some p =>
    (updateNoteTitle { st with autoSaveTimeout := none } authed p.id p.content now dbResp).1

/-- Editor.js `maxUndoLevels`. -/
def maxUndoLevels : Nat := 50

/-- Fallback markup `'<p><br></p>'` that `setContent` substitutes for a
falsy (empty) argument. -/
def defaultEditorHtml : String := "<p><br></p>"

/-- State of an `Editor` instance: the `contentEditable` element's
`innerHTML` plus the three history fields. -/
structure Editor where
  content : String
  undoStack : List String
  redoStack : List String
  lastSavedState : String
deriving Repr, DecidableEq

/-- Editor.saveState: record nothing when the content is unchanged;
otherwise push the previous saved state, drop the oldest entry past
`maxUndoLevels`, clear the redo stack and remember the new state. -/
def saveState (e : Editor) : Editor :=
  if e.content = e.lastSavedState then e
  else
    let u := e.undoStack ++ [e.lastSavedState]
    let u' := if maxUndoLevels < u.length then u.drop 1 else u
    { e with undoStack := u', redoStack := [], lastSavedState := e.content }

/-- Editor.setContent: assign the markup (or the fallback paragraph for
an empty argument) and call `saveState`. -/
def setContent (e : Editor) (html : String) : Editor :=
  saveState { e with content := if html = "" then defaultEditorHtml else html }

/-- Editor.undo: pop the last undo entry, push the current content onto
the redo stack, load the popped state through `setContent` (which runs
`saveState` again) and overwrite `lastSavedState`. -/
def undo (e : Editor) : Editor :=
  match e.undoStack.getLast? with
  | none => e
  | some prev =>
    let e1 : Editor :=
      { e with
        undoStack := e.undoStack.dropLast
        redoStack := e.redoStack ++ [e.content] }
    { setContent e1 prev with lastSavedState := prev }

/-- Editor.redo: pop the last redo entry, push the current content onto
the undo stack (with no size check), load the popped state through
`setContent` and overwrite `lastSavedState`. -/
def redo (e : Editor) : Editor :=
  match e.redoStack.getLast? with
  | none => e
  | some next =>
    let e1 : Editor :=
      { e with
        redoStack := e.redoStack.dropLast
        undoStack := e.undoStack ++ [e.content] }
    { setContent e1 next with lastSavedState := next }

/-- Events driving an editor instance: a user edit mutating the
element's `innerHTML` (whose debounced input handler is the separate
`save` event), the debounced `saveState`, `undo`, `redo`, and a
programmatic `setContent` (note load). -/
inductive EditorOp where
  | typeContent (s : String)
  | save
  | undoOp
  | redoOp
  | setContentOp (s : String)
deriving Repr, DecidableEq

/-- Apply one editor event. -/
def editorStep (e : Editor) : EditorOp → Editor
  | EditorOp.typeContent s => { e with content := s }
  | EditorOp.save => saveState e
  | EditorOp.undoOp => undo e
  | EditorOp.redoOp => redo e
  | EditorOp.setContentOp s => setContent e s

/-- Run a sequence of editor events. -/
def runOps (e : Editor) : List EditorOp → Editor
  | [] => e
  | op :: rest => runOps (editorStep e op) rest

/-- Editor constructor followed by `initializeEditor` (which calls
`saveState` on the element's initial markup). -/
def initEditor (initialContent : String) : Editor :=
  saveState ⟨initialContent, [], [], ""⟩

/-- History invariant maintained by the editor: the undo stack is
bounded, and while redo entries exist the two stacks together stay
within the bound (a redo pushes unchecked, but can only run after undos
that shrank the undo stack). -/
def editorInv (e : Editor) : Prop :=
  e.undoStack.length ≤ maxUndoLevels ∧
  (e.redoStack ≠ [] → e.undoStack.length + e.redoStack.length ≤ maxUndoLevels)

/-! Helper lemmas about the list traversals of the store. -/

theorem getNoteById_eq_none (notes : List Note) (id : String)
    (h : ∀ n, n ∈ notes → ¬ n.id = id) : getNoteById notes id = none := by
  induction notes with
  | nil => rfl
  | cons n rest ih =>
    unfold getNoteById
    rw [if_neg (h n (List.mem_cons_self _ _))]
    exact ih (fun m hm => h m (List.mem_cons_of_mem _ hm))

theorem updateFirst_no_match (notes : List Note) (id : String) (f : Note → Note)
    (h : ∀ n, n ∈ notes → ¬ n.id = id) : updateFirst notes id f = (notes, none) := by
  induction notes with
  | nil => rfl
  | cons n rest ih =>
    have ih' := ih (fun m hm => h m (List.mem_cons_of_mem _ hm))
    simp [updateFirst, h n (List.mem_cons_self _ _), ih']

theorem updateFirst_found (pre post : List Note) (n : Note) (id : String) (f : Note → Note)
    (hid : n.id = id) (hpre : ∀ m, m ∈ pre → ¬ m.id = id) :
    updateFirst (pre ++ n :: post) id f = (pre ++ f n :: post, some (f n)) := by
  induction pre with
  | nil => simp [updateFirst, hid]
  | cons m rest ih =>
    have ih' := ih (fun x hx => hpre x (List.mem_cons_of_mem _ hx))
    simp [updateFirst, hpre m (List.mem_cons_self _ _), ih']

theorem removeFirst_found (pre post : List Note) (n : Note) (id : String)
    (hid : n.id = id) (hpre : ∀ m, m ∈ pre → ¬ m.id = id) :
    removeFirst (pre ++ n :: post) id = (pre ++ post, true) := by
  induction pre with
  | nil => simp [removeFirst, hid]
  | cons m rest ih =>
    have ih' := ih (fun x hx => hpre x (List.mem_cons_of_mem _ hx))
    simp [removeFirst, hpre m (List.mem_cons_self _ _), ih']

theorem updateNote_autoSaveTimeout (st : Store) (authed : Bool) (id : String)
    (u : NoteUpdates) (now : Nat) (dbResp : Option Note) :
    (updateNote st authed id u now dbResp).1.autoSaveTimeout = st.autoSaveTimeout := by
  have hstor : (updateNoteInStorage st id u now).1.autoSaveTimeout = st.autoSaveTimeout := by
    unfold updateNoteInStorage
    rcases h : updateFirst st.notes id (fun n => applyUpdates n u now) with ⟨notes', _ | n'⟩ <;>
      simp [h, saveNotesToStorage]
  unfold updateNote
  split
  · unfold updateNoteInDatabase
    rcases dbResp with _ | data
    · exact hstor
    · rcases h : updateFirst st.notes id (fun _ => data) with ⟨notes', _ | n'⟩ <;>
        simp [h, saveNotesToStorage]
  · exact hstor

/-! Helper lemmas about the character-level operations. -/

theorem dropWhile_head_not (p : Char → Bool) :
    ∀ (l : List Char) (c : Char) (cs : List Char), l.dropWhile p = c :: cs → p c = false := by
  intro l
  induction l with
  | nil => intro c cs h; simp [List.dropWhile] at h
  | cons a as ih =>
    intro c cs h
    rw [List.dropWhile_cons] at h
    by_cases hp : p a
    · rw [if_pos hp] at h; exact ih c cs h
    · rw [if_neg hp] at h
      cases h
      simpa using hp

theorem dropTrailingWs_head (c : Char) (cs : List Char) (hc : isJsWs c = false) :
    ∃ cs', dropTrailingWs (c :: cs) = c :: cs' := by
  by_cases h : (dropTrailingWs cs).isEmpty
  · exact ⟨[], by simp [dropTrailingWs, h, hc]⟩
  · exact ⟨dropTrailingWs cs, by simp [dropTrailingWs, h]⟩

theorem trimList_head_not_ws (l : List Char) (c : Char) (cs : List Char)
    (h : trimList l = c :: cs) : isJsWs c = false := by
  unfold trimList at h
  rcases hd : l.dropWhile isJsWs with _ | ⟨a, as⟩
  · rw [hd] at h; simp [dropTrailingWs] at h
  · rw [hd] at h
    have ha : isJsWs a = false := dropWhile_head_not _ l a as hd
    rcases dropTrailingWs_head a as ha with ⟨cs', heq⟩
    rw [heq] at h
    cases h
    exact ha

theorem trimList_cons_not_ws (c : Char) (cs : List Char) (hc : isJsWs c = false) :
    ∃ cs', trimList (c :: cs) = c :: cs' := by
  unfold trimList
  rw [List.dropWhile_cons, if_neg (by simp [hc])]
  exact dropTrailingWs_head c cs hc

/-! Claim theorems. -/

/-- C2: deleting a note while no session exists fails with the
authorization error `User must be authenticated to delete notes`, and
neither the in-memory note list nor the active-note pointer (nor any
other part of the store) is touched: the check precedes every
mutation. -/
theorem deleteNote_no_session_error (st : Store) (dbOk : Bool) (id : String) :
    deleteNote st false dbOk id
      = (st, Except.error "User must be authenticated to delete notes") ∧
    (deleteNote st false dbOk id).1.notes = st.notes ∧
    (deleteNote st false dbOk id).1.activeNoteId = st.activeNoteId :=
  ⟨rfl, rfl, rfl⟩

/-- C4 counterexample: on `<p>Hello world. Bye!</p>` the stats are
words 3, characters 17, sentences 2 — not characters 15 as the claim
states, since the tag-stripped text `Hello world. Bye!` has 17
characters. -/
theorem getNoteStats_example_counterexample :
    getNoteStats "<p>Hello world. Bye!</p>" = ⟨3, 17, 2⟩ ∧
    ¬ getNoteStats "<p>Hello world. Bye!</p>" = ⟨3, 15, 2⟩ := by
  constructor
  · rfl
  · decide

/-- C4 (amended): `getNoteStats "<p>Hello world. Bye!</p>"` returns
words 3, characters 17 and sentences 2, the counts being computed over
the tag-stripped text `Hello world. Bye!`, whose length is 17. -/
theorem getNoteStats_example_corrected :
    getNoteStats "<p>Hello world. Bye!</p>" = ⟨3, 17, 2⟩ ∧
    stripHtml "<p>Hello world. Bye!</p>" = "Hello world. Bye!" ∧
    ("Hello world. Bye!" : String).length = 17 :=
  ⟨rfl, rfl, rfl⟩

/-- C6: when the remote insert of a create rejects (`dbResp = none`)
while the store is in database mode with a session, `createNote` does
not raise: it falls back to `createNoteInStorage`, so the new note with
the generated id is put at the front of the list, becomes active, and
both it and the active id are mirrored to the local-storage entries. -/
theorem createNote_fails_open (notes : List Note) (activeId : Option String)
    (storedN : List Note) (storedA : Option String) (pend : Option PendingSave)
    (title content genId : String) (now : Nat) :
    createNote ⟨notes, activeId, true, storedN, storedA, pend⟩ true title content none
        genId now
      = createNoteInStorage ⟨notes, activeId, true, storedN, storedA, pend⟩ title content
          genId now ∧
    (createNoteInStorage ⟨notes, activeId, true, storedN, storedA, pend⟩ title content
        genId now).2 = ⟨genId, title, content, now, now⟩ ∧
    (createNoteInStorage ⟨notes, activeId, true, storedN, storedA, pend⟩ title content
        genId now).1.notes = ⟨genId, title, content, now, now⟩ :: notes ∧
    (createNoteInStorage ⟨notes, activeId, true, storedN, storedA, pend⟩ title content
        genId now).1.activeNoteId = some genId ∧
    (createNoteInStorage ⟨notes, activeId, true, storedN, storedA, pend⟩ title content
        genId now).1.storedNotes = ⟨genId, title, content, now, now⟩ :: notes ∧
    (createNoteInStorage ⟨notes, activeId, true, storedN, storedA, pend⟩ title content
        genId now).1.storedActiveId = some genId :=
  ⟨rfl, rfl, rfl, rfl, rfl, rfl⟩

/-- C7: with a session, a second auto-save call inside the debounce
window (same or different note) replaces the single pending timer, so
only the second call's id and content remain scheduled; firing the
timer performs exactly the one `updateNoteTitle` write with that
content and leaves no timer pending; without a session an auto-save
call schedules nothing at all. -/
theorem autoSaveNote_debounce (st : Store) (id1 c1 id2 c2 : String) (d1 d2 now : Nat)
    (dbResp : Option Note) :
    (autoSaveNote (autoSaveNote st true id1 c1 d1) true id2 c2 d2).autoSaveTimeout
      = some ⟨id2, c2, d2⟩ ∧
    fireAutoSave (autoSaveNote (autoSaveNote st true id1 c1 d1) true id2 c2 d2) true now
        dbResp
      = (updateNoteTitle { st with autoSaveTimeout := none } true id2 c2 now dbResp).1 ∧
    (fireAutoSave (autoSaveNote (autoSaveNote st true id1 c1 d1) true id2 c2 d2) true now
        dbResp).autoSaveTimeout = none ∧
    (∀ id c d, autoSaveNote st false id c d = st) := by
  refine ⟨rfl, rfl, ?_, fun id c d => rfl⟩
  exact updateNote_autoSaveTimeout { st with autoSaveTimeout := none } true id2
    ⟨some (deriveTitle c2), some c2⟩ now dbResp

theorem migrate_foldl (userId : String) (insertOk : Note → Bool) (notes : List Note) :
    ∀ acc : List DbRow,
      notes.foldl
          (fun acc n => if insertOk n then acc ++ [⟨userId, n.title, n.content⟩] else acc)
          acc
        = acc ++ (notes.filter insertOk).map
            (fun n => (⟨userId, n.title, n.content⟩ : DbRow)) := by
  induction notes with
  | nil => intro acc; simp
  | cons n rest ih =>
    intro acc
    by_cases hn : insertOk n
    · simp [List.foldl_cons, hn, ih, List.filter_cons]
    · simp [List.foldl_cons, hn, ih, List.filter_cons]

/-- C1: on the anonymous-to-authenticated transition the migration
checks the remote table first: if the user already owns a row, the
remote table is left exactly as it was (no insert); if the user owns no
row, the remote table afterwards is the old table extended with one row
per local note whose insert succeeded — in particular every local note
whose insert does not fail ends up in the remote table, and a failed
individual insert is skipped rather than aborting the others. -/
theorem migrateToDatabase_skip_or_complete (userId : String) (notes : List Note)
    (remote : List DbRow) (insertOk : Note → Bool) :
    (¬ remote.filter (fun r => r.user_id = userId) = [] →
        migrateToDatabase true userId notes remote insertOk = remote) ∧
    (remote.filter (fun r => r.user_id = userId) = [] →
        migrateToDatabase true userId notes remote insertOk
          = remote ++ (notes.filter insertOk).map
              (fun n => (⟨userId, n.title, n.content⟩ : DbRow)) ∧
        ∀ n, n ∈ notes → insertOk n = true →
          (⟨userId, n.title, n.content⟩ : DbRow)
            ∈ migrateToDatabase true userId notes remote insertOk) := by
  by_cases hnil : notes.isEmpty
  · have hmig : migrateToDatabase true userId notes remote insertOk = remote := by
      simp [migrateToDatabase, hnil]
    have hnotes : notes = [] := by
      cases notes
      · rfl
      · simp [List.isEmpty] at hnil
    refine ⟨fun _ => hmig, fun _ => ⟨by subst hnotes; simpa using hmig, ?_⟩⟩
    intro n hn
    rw [hnotes] at hn
    exact absurd hn (List.not_mem_nil n)
  · constructor
    · intro hfil
      have : ¬ (remote.filter (fun r => r.user_id = userId)).isEmpty := by
        simpa [List.isEmpty_iff] using hfil
      simp [migrateToDatabase, hnil, this]
    · intro hfil
      have hmig : migrateToDatabase true userId notes remote insertOk
          = remote ++ (notes.filter insertOk).map
              (fun n => (⟨userId, n.title, n.content⟩ : DbRow)) := by
        simp [migrateToDatabase, hnil, hfil, List.isEmpty_iff, migrate_foldl]
      refine ⟨hmig, ?_⟩
      intro n hn hok
      rw [hmig]
      refine List.mem_append_right _ ?_
      exact List.mem_map_of_mem _ (List.mem_filter.mpr ⟨hn, hok⟩)

/-- Local note used by concrete migration scenarios. -/
def migNote : Note := ⟨"n1", "T", "C", 0, 0⟩

theorem migrateToDatabase_skip_or_complete_witness :
    migrateToDatabase true "u" [migNote] [⟨"u", "X", "Y"⟩] (fun _ => true)
      = [⟨"u", "X", "Y"⟩] ∧
    (⟨"u", "T", "C"⟩ : DbRow)
      ∈ migrateToDatabase true "u" [migNote] [] (fun _ => true) := by
  refine ⟨(migrateToDatabase_skip_or_complete "u" [migNote] [⟨"u", "X", "Y"⟩]
      (fun _ => true)).1 (by decide), ?_⟩
  exact ((migrateToDatabase_skip_or_complete "u" [migNote] [] (fun _ => true)).2
    (by decide)).2 migNote (by decide) rfl

/-- First of the three concrete notes of the delete scenario. -/
def noteA : Note := ⟨"a", "A", "", 0, 0⟩

/-- Second (active) of the three concrete notes of the delete scenario. -/
def noteB : Note := ⟨"b", "B", "", 0, 0⟩

/-- Third of the three concrete notes of the delete scenario. -/
def noteC : Note := ⟨"c", "C", "", 0, 0⟩

/-- Store holding the three notes with the middle one active. -/
def threeNoteStore : Store := ⟨[noteA, noteB, noteC], some "b", true, [], none, none⟩

/-- C3 counterexample: deleting the active middle note of `[a, b, c]`
succeeds, yet the note that becomes active is `a` — the FIRST remaining
note — not `c`, the note that followed the deleted one, as the claim
states. -/
theorem deleteNote_next_note_counterexample :
    (deleteNote threeNoteStore true true "b").2 = Except.ok true ∧
    (deleteNote threeNoteStore true true "b").1.notes = [noteA, noteC] ∧
    (deleteNote threeNoteStore true true "b").1.activeNoteId = some "a" ∧
    ¬ (deleteNote threeNoteStore true true "b").1.activeNoteId = some "c" := by
  refine ⟨rfl, rfl, rfl, by decide⟩

/-- C3 (amended): when an authenticated delete succeeds on a present
note, the note is removed; if it was active, the FIRST note of the
remaining list (which is the following note only when the deleted note
was first) becomes active, or the pointer is emptied when no note
remains; deleting a non-active note leaves the pointer unchanged. -/
theorem deleteNote_activates_head (st : Store) (pre post : List Note) (n : Note)
    (id : String) (hdecomp : st.notes = pre ++ n :: post) (hid : n.id = id)
    (hpre : ∀ m, m ∈ pre → ¬ m.id = id) :
    (deleteNote st true true id).2 = Except.ok true ∧
    (deleteNote st true true id).1.notes = pre ++ post ∧
    (st.activeNoteId = some id →
      (deleteNote st true true id).1.activeNoteId = (pre ++ post).head?.map Note.id) ∧
    (¬ st.activeNoteId = some id →
      (deleteNote st true true id).1.activeNoteId = st.activeNoteId) := by
  have hrm : removeFirst st.notes id = (pre ++ post, true) := by
    rw [hdecomp]; exact removeFirst_found pre post n id hid hpre
  unfold deleteNote
  rw [hrm]
  refine ⟨rfl, rfl, ?_, ?_⟩
  · intro hact
    show (if st.activeNoteId = some id then _ else _) = _
    rw [if_pos hact]
    rcases hl : pre ++ post with _ | ⟨m, rest⟩
    · rfl
    · rfl
  · intro hact
    show (if st.activeNoteId = some id then _ else _) = _
    rw [if_neg hact]

theorem deleteNote_activates_head_witness :
    (deleteNote ⟨[⟨"x", "X", "", 0, 0⟩, ⟨"y", "Y", "", 0, 0⟩], some "x", true, [], none,
        none⟩ true true "x").2 = Except.ok true ∧
    (deleteNote ⟨[⟨"x", "X", "", 0, 0⟩, ⟨"y", "Y", "", 0, 0⟩], some "x", true, [], none,
        none⟩ true true "x").1.notes = [⟨"y", "Y", "", 0, 0⟩] ∧
    (deleteNote ⟨[⟨"x", "X", "", 0, 0⟩, ⟨"y", "Y", "", 0, 0⟩], some "x", true, [], none,
        none⟩ true true "x").1.activeNoteId = some "y" := by
  have h := deleteNote_activates_head
    ⟨[⟨"x", "X", "", 0, 0⟩, ⟨"y", "Y", "", 0, 0⟩], some "x", true, [], none, none⟩
    [] [⟨"y", "Y", "", 0, 0⟩] ⟨"x", "X", "", 0, 0⟩ "x" rfl rfl
    (fun m hm => absurd hm (List.not_mem_nil m))
  exact ⟨h.1, h.2.1, by rw [h.2.2.1 rfl]; rfl⟩

/-- Note whose title contains a run of two non-alphanumeric characters. -/
def runTitleNote : Note := ⟨"n1", "a  b", "<p>x</p>", 0, 0⟩

/-- Store holding `runTitleNote`. -/
def runTitleStore : Store := ⟨[runTitleNote], some "n1", false, [], none, none⟩

/-- Sanitization as the claim words it (modelled from the spec, for the
refinement comparison only): every RUN of non-alphanumeric characters
becomes a single underscore, then the result is lower-cased. -/
def sanitizeFilenameRuns (s : String) : String :=
  ⟨(List.intercalate ['_'] (splitRuns (fun c => !c.isAlphanum) s.data)).map Char.toLower⟩

/-- C8 counterexample: exporting the note titled `a  b` (two spaces)
yields the filename `a__b.txt` — one underscore per character, because
the regex `/[^a-z0-9]/gi` has no run quantifier — while the claim's
run-collapsing sanitization would give `a_b.txt`. -/
theorem exportNoteAsText_runs_counterexample :
    exportNoteAsText runTitleStore "n1" = some ⟨"a  b", "x", "a__b.txt"⟩ ∧
    sanitizeFilenameRuns "a  b" ++ ".txt" = "a_b.txt" ∧
    ¬ (("a__b.txt" : String) = "a_b.txt") := by
  refine ⟨rfl, rfl, by decide⟩

/-- C8 (amended): for an id not in the list `exportNoteAsText` returns
nothing; for a present id it returns the note's tag-stripped content
and the filename built from the title by replacing EACH non-alphanumeric
character (not each run) with `_` and lower-casing, plus `.txt`; the
sanitized stem has the same length as the title and is its character-wise
image under `sanChar`. -/
theorem exportNoteAsText_spec (st : Store) (id : String) :
    ((∀ n, n ∈ st.notes → ¬ n.id = id) → exportNoteAsText st id = none) ∧
    (∀ note, getNoteById st.notes id = some note →
      exportNoteAsText st id
        = some ⟨note.title, stripHtml note.content,
            sanitizeFilename note.title ++ ".txt"⟩ ∧
      (sanitizeFilename note.title).data.length = note.title.data.length ∧
      ∀ i : Nat, (sanitizeFilename note.title).data[i]?
          = note.title.data[i]?.map sanChar) := by
  constructor
  · intro h
    unfold exportNoteAsText
    rw [getNoteById_eq_none st.notes id h]
  · intro note h
    refine ⟨by unfold exportNoteAsText; rw [h], by simp [sanitizeFilename], ?_⟩
    intro i
    simp [sanitizeFilename, List.getElem?_map]

theorem exportNoteAsText_spec_witness :
    exportNoteAsText runTitleStore "zz" = none ∧
    exportNoteAsText runTitleStore "n1" = some ⟨"a  b", "x", "a__b.txt"⟩ ∧
    (sanitizeFilename "a  b").data.length = ("a  b" : String).data.length := by
  refine ⟨(exportNoteAsText_spec runTitleStore "zz").1 (by decide), ?_, ?_⟩
  · have h := ((exportNoteAsText_spec runTitleStore "n1").2 runTitleNote (by decide)).1
    rw [h]
    rfl
  · exact ((exportNoteAsText_spec runTitleStore "n1").2 runTitleNote (by decide)).2.1

/-- C9: updating an id absent from the in-memory list is a no-op
returning `none` whatever the route (database success, database
failure with storage fallback, or plain storage): store, list and
active pointer stay untouched.  Updating a present id through the
storage path merges the given fields into the first matching note,
stamps `updatedAt` with the current time, keeps the id, leaves every
other note in place and does not move the active pointer. -/
theorem updateNote_frame (st : Store) (authed : Bool) (id : String) (u : NoteUpdates)
    (now : Nat) (dbResp : Option Note) :
    ((∀ n, n ∈ st.notes → ¬ n.id = id) →
        updateNote st authed id u now dbResp = (st, none)) ∧
    (∀ pre n post, st.notes = pre ++ n :: post → n.id = id →
        (∀ m, m ∈ pre → ¬ m.id = id) →
        updateNoteInStorage st id u now
          = (saveNotesToStorage { st with notes := pre ++ applyUpdates n u now :: post },
             some (applyUpdates n u now)) ∧
        (updateNoteInStorage st id u now).1.activeNoteId = st.activeNoteId ∧
        (applyUpdates n u now).updatedAt = now ∧
        (applyUpdates n u now).id = n.id) := by
  constructor
  · intro h
    have hupf := updateFirst_no_match st.notes id (fun n => applyUpdates n u now) h
    have hstor : updateNoteInStorage st id u now = (st, none) := by
      unfold updateNoteInStorage
      rw [hupf]
    unfold updateNote
    split
    · unfold updateNoteInDatabase
      rcases dbResp with _ | data
      · exact hstor
      · dsimp only
        rw [updateFirst_no_match st.notes id (fun _ => data) h]
    · exact hstor
  · intro pre n post hdecomp hid hpre
    have hupf : updateFirst st.notes id (fun m => applyUpdates m u now)
        = (pre ++ applyUpdates n u now :: post, some (applyUpdates n u now)) := by
      rw [hdecomp]
      exact updateFirst_found pre post n id _ hid hpre
    have hmain : updateNoteInStorage st id u now
        = (saveNotesToStorage { st with notes := pre ++ applyUpdates n u now :: post },
           some (applyUpdates n u now)) := by
      unfold updateNoteInStorage
      rw [hupf]
    exact ⟨hmain, by rw [hmain]; rfl, rfl, rfl⟩

/-- Store holding one note, used to instantiate hypotheses of the
frame and title theorems at concrete inputs. -/
def oneNoteStore : Store := ⟨[⟨"a", "T", "C", 0, 0⟩], some "a", false, [], none, none⟩

theorem updateNote_frame_witness :
    updateNote oneNoteStore false "zz" ⟨some "T2", none⟩ 5 none = (oneNoteStore, none) ∧
    (updateNoteInStorage oneNoteStore "a" ⟨some "T2", none⟩ 5).2
      = some ⟨"a", "T2", "C", 0, 5⟩ := by
  constructor
  · exact (updateNote_frame oneNoteStore false "zz" ⟨some "T2", none⟩ 5 none).1 (by decide)
  · have h := ((updateNote_frame oneNoteStore false "a" ⟨some "T2", none⟩ 5 none).2
      [] ⟨"a", "T", "C", 0, 0⟩ [] rfl rfl
      (fun m hm => absurd hm (List.not_mem_nil m))).1
    rw [h]
    rfl

/-- C5: `updateNoteTitle` always passes the derived title together with
the unchanged content to `updateNote`; the derived title is
`Untitled Note` exactly when the content is empty or strips and trims
to nothing; otherwise it is the trimmed first line of the tag-stripped,
trimmed text, truncated to its first 50 characters with an appended
`...` when that line is longer than 50 characters. -/
theorem updateNoteTitle_derives_title (st : Store) (authed : Bool) (id content : String)
    (now : Nat) (dbResp : Option Note) :
    updateNoteTitle st authed id content now dbResp
      = updateNote st authed id ⟨some (deriveTitle content), some content⟩ now dbResp ∧
    (content = "" → deriveTitle content = "Untitled Note") ∧
    (trimList (stripTags content.data) = [] → deriveTitle content = "Untitled Note") ∧
    (∀ c cs, ¬ content = "" → trimList (stripTags content.data) = c :: cs →
        deriveTitle content
          = String.mk
              ((trimList ((c :: cs).takeWhile (fun x => !(x = '\n')))).take 50
               ++ (if 50 < (trimList ((c :: cs).takeWhile (fun x => !(x = '\n')))).length
                   then ['.', '.', '.'] else []))) := by
  refine ⟨rfl, ?_, ?_, ?_⟩
  · intro h
    rw [h]
    rfl
  · intro h
    by_cases hc : content = ""
    · rw [hc]; rfl
    · unfold deriveTitle extractFirstLineAsTitle
      rw [if_neg hc, if_pos h]
      rfl
  · intro c cs hc hplain
    have hcws : isJsWs c = false := trimList_head_not_ws _ c cs hplain
    have hcnl : ¬ (c = '\n') := by
      intro he
      rw [he] at hcws
      simp [isJsWs] at hcws
    have htake : (c :: cs).takeWhile (fun x => !(x = '\n'))
        = c :: cs.takeWhile (fun x => !(x = '\n')) := by
      rw [List.takeWhile_cons, if_pos (by simpa using hcnl)]
    obtain ⟨cs', htrim⟩ :=
      trimList_cons_not_ws c (cs.takeWhile (fun x => !(x = '\n'))) hcws
    have hfl : trimList ((c :: cs).takeWhile (fun x => !(x = '\n'))) = c :: cs' := by
      rw [htake, htrim]
    have hextract : extractFirstLineAsTitle content = String.mk (c :: cs') := by
      unfold extractFirstLineAsTitle
      rw [if_neg hc, hplain, if_neg (List.cons_ne_nil c cs), hfl,
        if_neg (List.cons_ne_nil c cs')]
    unfold deriveTitle
    rw [hextract, hfl]
    have hdata : (String.mk (c :: cs')).data = c :: cs' := rfl
    rw [hdata, if_neg (List.cons_ne_nil c cs')]

theorem updateNoteTitle_derives_title_witness :
    deriveTitle "" = "Untitled Note" ∧
    deriveTitle "<p>hi</p>" = "hi" := by
  constructor
  · exact (updateNoteTitle_derives_title oneNoteStore false "a" "" 0 none).2.1 rfl
  · have h := (updateNoteTitle_derives_title oneNoteStore false "a" "<p>hi</p>" 0
      none).2.2.2 'h' ['i'] (by decide) (by decide)
    rw [h]
    decide

/-! Editor invariant preservation. -/

theorem saveState_inv (e : Editor) (h : editorInv e) : editorInv (saveState e) := by
  have h1 := h.1
  unfold saveState
  split
  · exact h
  · refine ⟨?_, fun hr => absurd rfl hr⟩
    show (if maxUndoLevels < (e.undoStack ++ [e.lastSavedState]).length
          then (e.undoStack ++ [e.lastSavedState]).drop 1
          else e.undoStack ++ [e.lastSavedState]).length ≤ maxUndoLevels
    split
    · simp only [List.length_drop, List.length_append, List.length_cons,
        List.length_nil]
      omega
    · rename_i hle
      simp only [List.length_append, List.length_cons, List.length_nil] at hle ⊢
      unfold maxUndoLevels at hle ⊢
      omega

theorem undo_inv (e : Editor) (h : editorInv e) : editorInv (undo e) := by
  unfold undo
  cases hg : e.undoStack.getLast? with
  | none => exact h
  | some prev =>
    have hne : e.undoStack ≠ [] := by
      intro hnil
      rw [hnil] at hg
      simp at hg
    have hlen : 0 < e.undoStack.length := List.length_pos.mpr hne
    have hu := h.1
    have h1 : editorInv
        { e with
          undoStack := e.undoStack.dropLast
          redoStack := e.redoStack ++ [e.content] } := by
      constructor
      · simp only [List.length_dropLast]
        omega
      · intro _
        simp only [List.length_dropLast, List.length_append, List.length_cons,
          List.length_nil]
        rcases hr : e.redoStack with _ | ⟨r, rs⟩
        · simp only [List.length_nil]
          omega
        · have h2 := h.2 (by rw [hr]; exact List.cons_ne_nil r rs)
          rw [hr] at h2
          simp only [List.length_cons] at h2 ⊢
          omega
    exact saveState_inv _ h1

theorem redo_inv (e : Editor) (h : editorInv e) : editorInv (redo e) := by
  unfold redo
  cases hg : e.redoStack.getLast? with
  | none => exact h
  | some next =>
    have hne : e.redoStack ≠ [] := by
      intro hnil
      rw [hnil] at hg
      simp at hg
    have hlen : 0 < e.redoStack.length := List.length_pos.mpr hne
    have hu := h.1
    have hsum := h.2 hne
    have h1 : editorInv
        { e with
          redoStack := e.redoStack.dropLast
          undoStack := e.undoStack ++ [e.content] } := by
      constructor
      · simp only [List.length_append, List.length_cons, List.length_nil]
        omega
      · intro _
        simp only [List.length_dropLast, List.length_append, List.length_cons,
          List.length_nil]
        omega
    exact saveState_inv _ h1

theorem editorStep_inv (e : Editor) (op : EditorOp) (h : editorInv e) :
    editorInv (editorStep e op) := by
  cases op with
  | typeContent s => exact h
  | save => exact saveState_inv e h
  | undoOp => exact undo_inv e h
  | redoOp => exact redo_inv e h
  | setContentOp s => exact saveState_inv _ h

theorem runOps_inv (ops : List EditorOp) :
    ∀ e : Editor, editorInv e → editorInv (runOps e ops) := by
  induction ops with
  | nil => intro e h; exact h
  | cons op rest ih => intro e h; exact ih _ (editorStep_inv e op h)

theorem initEditor_inv (s : String) : editorInv (initEditor s) :=
  saveState_inv _ ⟨by simp [maxUndoLevels], fun hr => absurd rfl hr⟩

/-- C10: starting from a freshly constructed editor, after any sequence
of content edits, `saveState`, `undo`, `redo` and `setContent` events
the undo stack never holds more than `maxUndoLevels` (50) entries; a
`saveState` that records a new state at the bound discards the oldest
entry (the front) while appending the new one; and every `saveState`
that records a new state empties the redo stack. -/
theorem editor_undo_bound (initialContent : String) (ops : List EditorOp) :
    (runOps (initEditor initialContent) ops).undoStack.length ≤ maxUndoLevels ∧
    (∀ e : Editor, ¬ e.content = e.lastSavedState → (saveState e).redoStack = []) ∧
    (∀ e : Editor, ¬ e.content = e.lastSavedState →
        e.undoStack.length = maxUndoLevels →
        (saveState e).undoStack = e.undoStack.drop 1 ++ [e.lastSavedState]) := by
  refine ⟨(runOps_inv ops _ (initEditor_inv initialContent)).1, ?_, ?_⟩
  · intro e hne
    unfold saveState
    rw [if_neg hne]
  · intro e hne hfull
    have hpos : 1 ≤ e.undoStack.length := by
      unfold maxUndoLevels at hfull
      omega
    unfold saveState
    rw [if_neg hne]
    show (if maxUndoLevels < (e.undoStack ++ [e.lastSavedState]).length
          then (e.undoStack ++ [e.lastSavedState]).drop 1
          else e.undoStack ++ [e.lastSavedState]) = _
    rw [if_pos (by simp [hfull])]
    exact List.drop_append_of_le_length hpos

theorem editor_undo_bound_witness :
    (runOps (initEditor "a") [EditorOp.save]).undoStack.length ≤ maxUndoLevels ∧
    (saveState ⟨"b", [], [], "a"⟩).redoStack = [] ∧
    (saveState ⟨"b", List.replicate 50 "x", [], "a"⟩).undoStack
      = (List.replicate 50 "x").drop 1 ++ ["a"] := by
  refine ⟨(editor_undo_bound "a" [EditorOp.save]).1,
    (editor_undo_bound "a" []).2.1 ⟨"b", [], [], "a"⟩ (by decide),
    (editor_undo_bound "a" []).2.2 ⟨"b", List.replicate 50 "x", [], "a"⟩ (by decide)
      (by simp [maxUndoLevels])⟩
